import Mathlib

/-!
Verification development for the serenity.sdk.python repository.

The repository is a thin client SDK over a remote risk-analytics REST
service.  The source tree available here holds the demo notebooks, the
build files and the project metadata; the SDK package itself
(serenity_sdk) is referenced by the notebooks but its code is not
present, so those parts are modelled from the specification, as marked
in the doc comments below.  Python dictionaries are modelled as
association lists in insertion order, UUIDs as natural numbers, and
real-valued market data as rationals.
-/

namespace Serenity

/-- Symbologies accepted by AssetMaster.create_portfolio in the
reference-data demo: NATIVE, SERENITY and COINGECKO. -/
inductive Symbology
  | NATIVE
  | SERENITY
  | COINGECKO
deriving DecidableEq, Repr

/-- Human-readable ticker symbols are strings. -/
abbrev Symbol := String

/-- Serenity asset identifiers (UUIDs in the service) are modelled as
natural numbers. -/
abbrev AssetId := Nat

/-- Modelled from the spec: the symbol-to-identifier bidirectional
mapping (the bidict dependency declared in pyproject.toml).  It is a
lookup table of (symbol, identifier) pairs in which no symbol and no
identifier appears twice, which is the invariant bidict enforces. -/
structure BiDict where
  pairs : List (Symbol × AssetId)
  nodupKeys : (pairs.map Prod.fst).Nodup
  nodupVals : (pairs.map Prod.snd).Nodup

/-- Forward lookup: the identifier recorded for a symbol, if any. -/
def BiDict.getAssetId (d : BiDict) (s : Symbol) : Option AssetId :=
  (d.pairs.find? (fun p => p.1 == s)).map Prod.snd

/-- Reverse lookup: the symbol recorded for an identifier, if any. -/
def BiDict.getSymbol (d : BiDict) (a : AssetId) : Option Symbol :=
  (d.pairs.find? (fun p => p.2 == a)).map Prod.fst

/-- Modelled from the spec: the AssetMaster helper class, which holds
one symbol-to-identifier lookup table per symbology. -/
structure AssetMaster where
  tables : Symbology → BiDict

/-- Modelled from the spec: AssetMaster.get_asset_id_by_symbol looks a
symbol up in the table of the given symbology. -/
def AssetMaster.get_asset_id_by_symbol (m : AssetMaster) (s : Symbol)
    (symbology : Symbology) : Option AssetId :=
  (m.tables symbology).getAssetId s

/-- An asset position: a Serenity asset identifier and a quantity. -/
structure AssetPosition where
  assetId : AssetId
  quantity : Int
deriving DecidableEq, Repr

/-- Insertion of a position into a list keyed by asset identifier,
with Python-dict semantics: a later entry for an existing key replaces
the stored value in place, a new key is appended. -/
def insertPosition (ps : List AssetPosition) (p : AssetPosition) :
    List AssetPosition :=
  if ps.any (fun q => q.assetId == p.assetId) then
    ps.map (fun q => if q.assetId == p.assetId then p else q)
  else ps ++ [p]

/-- Keying a list of positions by asset identifier, as a Python dict
comprehension does. -/
def keyPositions (ps : List AssetPosition) : List AssetPosition :=
  ps.foldl insertPosition []

/-- Modelled from the spec: a Portfolio is a set of asset positions
keyed by asset identifier. -/
structure Portfolio where
  assetPositions : List AssetPosition
deriving DecidableEq, Repr

/-- Modelled from the spec: Portfolio.to_asset_positions returns the
portfolio positions. -/
def Portfolio.to_asset_positions (p : Portfolio) : List AssetPosition :=
  p.assetPositions

/-- Translation pass of create_portfolio: each raw (symbol, quantity)
entry becomes an asset position through the lookup table; a symbol
absent from the table fails the whole construction. -/
def translateRaw (m : AssetMaster) (symbology : Symbology) :
    List (Symbol × Int) → Option (List AssetPosition)
  | [] => some []
  | p :: rest =>
    match m.get_asset_id_by_symbol p.1 symbology,
          translateRaw m symbology rest with
    | some a, some ps => some (AssetPosition.mk a p.2 :: ps)
    | _, _ => none

/-- Modelled from the spec: AssetMaster.create_portfolio translates
each raw (symbol, quantity) entry through the lookup table of the
chosen symbology and builds a Portfolio keyed by asset identifier.  A
symbol absent from the table makes the whole construction fail. -/
def AssetMaster.create_portfolio (m : AssetMaster)
    (raw : List (Symbol × Int)) (symbology : Symbology) :
    Option Portfolio :=
  (translateRaw m symbology raw).map
    (fun ps => Portfolio.mk (keyPositions ps))

/-- Keys of a position list. -/
def posKeys (ps : List AssetPosition) : List AssetId :=
  ps.map AssetPosition.assetId

theorem posKeys_insertPosition (ps : List AssetPosition)
    (p : AssetPosition) :
    posKeys (insertPosition ps p) =
      if p.assetId ∈ posKeys ps then posKeys ps
      else posKeys ps ++ [p.assetId] := by
  unfold insertPosition posKeys
  by_cases h : p.assetId ∈ ps.map AssetPosition.assetId
  · have hany : ps.any (fun q => q.assetId == p.assetId) = true := by
      simp only [List.any_eq_true, beq_iff_eq]
      rcases List.mem_map.mp h with ⟨q, hq, hqe⟩
      exact ⟨q, hq, hqe⟩
    simp only [hany, if_true, h, List.map_map]
    apply List.map_congr_left
    intro q hq
    by_cases hb : q.assetId == p.assetId
    · simp only [Function.comp, hb, if_pos rfl]
      exact (eq_of_beq hb).symm
    · simp only [Function.comp]
      rw [if_neg]
      intro hc
      exact hb (by simp [hc])
  · have hany : ps.any (fun q => q.assetId == p.assetId) = false := by
      simp only [List.any_eq_false, beq_iff_eq]
      intro q hq hqe
      exact h (List.mem_map.mpr ⟨q, hq, hqe⟩)
    simp [hany, h]

theorem nodup_posKeys_insertPosition (ps : List AssetPosition)
    (p : AssetPosition) (h : (posKeys ps).Nodup) :
    (posKeys (insertPosition ps p)).Nodup := by
  rw [posKeys_insertPosition]
  by_cases hm : p.assetId ∈ posKeys ps
  · simpa [hm] using h
  · simp only [hm, if_false]
    rw [List.nodup_append]
    exact ⟨h, List.nodup_singleton _, by simpa using hm⟩

theorem nodup_posKeys_foldl (ps : List AssetPosition)
    (acc : List AssetPosition) (h : (posKeys acc).Nodup) :
    (posKeys (ps.foldl insertPosition acc)).Nodup := by
  induction ps generalizing acc with
  | nil => simpa using h
  | cons p rest ih =>
      simp only [List.foldl_cons]
      exact ih _ (nodup_posKeys_insertPosition acc p h)

theorem nodup_posKeys_keyPositions (ps : List AssetPosition) :
    (posKeys (keyPositions ps)).Nodup := by
  unfold keyPositions
  exact nodup_posKeys_foldl ps [] (by simp [posKeys])

theorem keyPositions_eq_self (ps : List AssetPosition)
    (h : (posKeys ps).Nodup) : keyPositions ps = ps := by
  unfold keyPositions
  have main : ∀ (l acc : List AssetPosition),
      (posKeys (acc ++ l)).Nodup → l.foldl insertPosition acc = acc ++ l := by
    intro l
    induction l with
    | nil => intro acc _; simp
    | cons p rest ih =>
        intro acc hnd
        have hkeys : posKeys (acc ++ p :: rest) =
            posKeys acc ++ p.assetId :: posKeys rest := by
          simp [posKeys]
        rw [hkeys] at hnd
        have hnotin : p.assetId ∉ posKeys acc := by
          rcases List.nodup_append.mp hnd with ⟨_, _, hdisj⟩
          intro hc
          exact hdisj hc (by simp)
        have hany : acc.any (fun q => q.assetId == p.assetId) = false := by
          simp only [List.any_eq_false, beq_iff_eq]
          intro q hq hqe
          exact hnotin (List.mem_map.mpr ⟨q, hq, hqe⟩)
        have hins : insertPosition acc p = acc ++ [p] := by
          unfold insertPosition
          simp [hany]
        simp only [List.foldl_cons, hins]
        have hnd2 : (posKeys ((acc ++ [p]) ++ rest)).Nodup := by
          simpa [posKeys] using hnd
        have h3 := ih (acc ++ [p]) hnd2
        rw [h3]
        simp
  simpa using main ps [] (by simpa [posKeys] using h)

theorem mem_pairs_of_getAssetId (d : BiDict) (s : Symbol) (a : AssetId)
    (h : d.getAssetId s = some a) : (s, a) ∈ d.pairs := by
  unfold BiDict.getAssetId at h
  rcases Option.map_eq_some'.mp h with ⟨p, hp, hpa⟩
  have hmem := List.mem_of_find?_eq_some hp
  have hpred := List.find?_some hp
  have h1 : p.1 = s := by simpa [beq_iff_eq] using hpred
  have : p = (s, a) := by
    cases p
    simp_all
  rwa [this] at hmem

theorem mem_pairs_of_getSymbol (d : BiDict) (a : AssetId) (s : Symbol)
    (h : d.getSymbol a = some s) : (s, a) ∈ d.pairs := by
  unfold BiDict.getSymbol at h
  rcases Option.map_eq_some'.mp h with ⟨p, hp, hps⟩
  have hmem := List.mem_of_find?_eq_some hp
  have hpred := List.find?_some hp
  have h2 : p.2 = a := by simpa [beq_iff_eq] using hpred
  have : p = (s, a) := by
    cases p
    simp_all
  rwa [this] at hmem

theorem getAssetId_of_mem (d : BiDict) (s : Symbol) (a : AssetId)
    (h : (s, a) ∈ d.pairs) : d.getAssetId s = some a := by
  unfold BiDict.getAssetId
  have hsome : (d.pairs.find? (fun p => p.1 == s)).isSome := by
    rw [List.find?_isSome]
    exact ⟨(s, a), h, by simp⟩
  rcases Option.isSome_iff_exists.mp hsome with ⟨p, hp⟩
  have hmem := List.mem_of_find?_eq_some hp
  have hpred := List.find?_some hp
  have h1 : p.1 = s := by simpa [beq_iff_eq] using hpred
  have hinj := List.inj_on_of_nodup_map d.nodupKeys
  have : p = (s, a) := hinj hmem h (by simpa using h1)
  rw [hp, this]
  rfl

theorem getSymbol_of_mem (d : BiDict) (s : Symbol) (a : AssetId)
    (h : (s, a) ∈ d.pairs) : d.getSymbol a = some s := by
  unfold BiDict.getSymbol
  have hsome : (d.pairs.find? (fun p => p.2 == a)).isSome := by
    rw [List.find?_isSome]
    exact ⟨(s, a), h, by simp⟩
  rcases Option.isSome_iff_exists.mp hsome with ⟨p, hp⟩
  have hmem := List.mem_of_find?_eq_some hp
  have hpred := List.find?_some hp
  have h2 : p.2 = a := by simpa [beq_iff_eq] using hpred
  have hinj := List.inj_on_of_nodup_map d.nodupVals
  have : p = (s, a) := hinj hmem h (by simpa using h2)
  rw [hp, this]
  rfl

theorem getAssetId_injective (d : BiDict) (s t : Symbol) (a : AssetId)
    (hs : d.getAssetId s = some a) (ht : d.getAssetId t = some a) :
    s = t := by
  have h1 := mem_pairs_of_getAssetId d s a hs
  have h2 := mem_pairs_of_getAssetId d t a ht
  have hinj := List.inj_on_of_nodup_map d.nodupVals
  have := hinj h1 h2 (by simp)
  simpa using congrArg Prod.fst this

theorem translateRaw_eq_map (m : AssetMaster) (symbology : Symbology)
    (raw : List (Symbol × Int))
    (h : ∀ p ∈ raw, (m.get_asset_id_by_symbol p.1 symbology).isSome) :
    translateRaw m symbology raw = some (raw.map (fun p =>
      AssetPosition.mk
        ((m.get_asset_id_by_symbol p.1 symbology).getD 0) p.2)) := by
  induction raw with
  | nil => rfl
  | cons p rest ih =>
      have hp := h p (by simp)
      rcases Option.isSome_iff_exists.mp hp with ⟨a, ha⟩
      have hrest := ih (fun q hq => h q (by simp [hq]))
      simp [translateRaw, ha, hrest]

theorem nodup_translated_keys (m : AssetMaster) (symbology : Symbology)
    (raw : List (Symbol × Int))
    (h1 : (raw.map Prod.fst).Nodup)
    (h2 : ∀ p ∈ raw, (m.get_asset_id_by_symbol p.1 symbology).isSome) :
    (raw.map (fun p =>
      (m.get_asset_id_by_symbol p.1 symbology).getD 0)).Nodup := by
  apply List.Nodup.map_on ?_ (List.Nodup.of_map _ h1)
  intro x hx y hy hxy
  rcases Option.isSome_iff_exists.mp (h2 x hx) with ⟨a, ha⟩
  rcases Option.isSome_iff_exists.mp (h2 y hy) with ⟨b, hb⟩
  rw [ha, hb] at hxy
  simp only [Option.getD_some] at hxy
  subst hxy
  have hxy1 : x.1 = y.1 :=
    getAssetId_injective (m.tables symbology) x.1 y.1 a ha hb
  exact List.inj_on_of_nodup_map h1 hx hy hxy1

/-- Demo lookup table for the NATIVE symbology, mirroring the
reference-data demo notebook tickers. -/
def demoNative : BiDict where
  pairs := [("BTC", 1), ("ETH", 2)]
  nodupKeys := by decide
  nodupVals := by decide

/-- Demo lookup table for the SERENITY symbology. -/
def demoSerenity : BiDict where
  pairs := [("tok.btc.bitcoin", 1), ("tok.eth.ethereum", 2)]
  nodupKeys := by decide
  nodupVals := by decide

/-- Demo lookup table for the COINGECKO symbology. -/
def demoCoingecko : BiDict where
  pairs := [("bitcoin", 1), ("ethereum", 2)]
  nodupKeys := by decide
  nodupVals := by decide

/-- Demo asset master with one table per symbology. -/
def demoAssetMaster : AssetMaster where
  tables := fun s =>
    match s with
    | .NATIVE => demoNative
    | .SERENITY => demoSerenity
    | .COINGECKO => demoCoingecko

/-- C1: for every raw portfolio given as a mapping from symbols to
quantities, and every supported symbology, create_portfolio returns a
Portfolio whose to_asset_positions contains exactly one asset position
per input symbol, the symbol translated to its Serenity asset
identifier by the lookup table and the quantity unchanged. -/
theorem C1_create_portfolio_translates (m : AssetMaster)
    (raw : List (Symbol × Int)) (symbology : Symbology)
    (h1 : (raw.map Prod.fst).Nodup)
    (h2 : ∀ p ∈ raw, (m.get_asset_id_by_symbol p.1 symbology).isSome) :
    ∃ P, m.create_portfolio raw symbology = some P ∧
      P.to_asset_positions = raw.map (fun p =>
        AssetPosition.mk
          ((m.get_asset_id_by_symbol p.1 symbology).getD 0) p.2) := by
  have hk : posKeys (raw.map (fun p =>
      AssetPosition.mk
        ((m.get_asset_id_by_symbol p.1 symbology).getD 0) p.2)) =
      raw.map (fun p =>
        (m.get_asset_id_by_symbol p.1 symbology).getD 0) := by
    simp [posKeys, List.map_map]
  have hnd : (posKeys (raw.map (fun p =>
      AssetPosition.mk
        ((m.get_asset_id_by_symbol p.1 symbology).getD 0) p.2))).Nodup := by
    rw [hk]
    exact nodup_translated_keys m symbology raw h1 h2
  have hmain : m.create_portfolio raw symbology =
      some (Portfolio.mk (raw.map (fun p =>
        AssetPosition.mk
          ((m.get_asset_id_by_symbol p.1 symbology).getD 0) p.2))) := by
    unfold AssetMaster.create_portfolio
    rw [translateRaw_eq_map m symbology raw h2, Option.map_some',
      keyPositions_eq_self _ hnd]
  exact ⟨_, hmain, rfl⟩

/-- Witness for C1: the NATIVE demo portfolio of the reference-data
notebook on the demo asset master. -/
theorem C1_witness :
    ∃ P, demoAssetMaster.create_portfolio
        [("BTC", 100), ("ETH", 1000)] .NATIVE = some P ∧
      P.to_asset_positions =
        ([("BTC", 100), ("ETH", 1000)] : List (Symbol × Int)).map (fun p =>
          AssetPosition.mk
            ((demoAssetMaster.get_asset_id_by_symbol p.1 .NATIVE).getD 0)
            p.2) :=
  C1_create_portfolio_translates demoAssetMaster
    [("BTC", 100), ("ETH", 1000)] .NATIVE (by decide) (by decide)

/-- C2: the symbol-to-identifier mapping is bidirectional: within one
table, symbol-to-identifier followed by identifier-to-symbol is the
identity and symmetrically, i.e. the table is a bijection between the
symbols and the identifiers it holds. -/
theorem C2_bidict_bijective (d : BiDict) :
    (∀ s a, d.getAssetId s = some a → d.getSymbol a = some s) ∧
    (∀ a s, d.getSymbol a = some s → d.getAssetId s = some a) := by
  constructor
  · intro s a h
    exact getSymbol_of_mem d s a (mem_pairs_of_getAssetId d s a h)
  · intro a s h
    exact getAssetId_of_mem d s a (mem_pairs_of_getSymbol d a s h)

/-- Witness for C2: round trips on the NATIVE demo table. -/
theorem C2_witness :
    demoNative.getSymbol 1 = some "BTC" ∧
    demoNative.getAssetId "BTC" = some 1 :=
  ⟨(C2_bidict_bijective demoNative).1 "BTC" 1 (by decide),
   (C2_bidict_bijective demoNative).2 1 "BTC" (by decide)⟩

/-- C6: every Portfolio built by create_portfolio is keyed by asset
identifier: to_asset_positions contains at most one position per
identifier, so two input symbols mapping to the same identifier cannot
produce two separate positions for it. -/
theorem C6_positions_keyed_by_identifier (m : AssetMaster)
    (raw : List (Symbol × Int)) (symbology : Symbology) (P : Portfolio)
    (h : m.create_portfolio raw symbology = some P) :
    (P.to_asset_positions.map AssetPosition.assetId).Nodup := by
  unfold AssetMaster.create_portfolio at h
  rcases Option.map_eq_some'.mp h with ⟨ps, _, hP⟩
  have hnd := nodup_posKeys_keyPositions ps
  rw [← hP]
  simpa [posKeys, Portfolio.to_asset_positions] using hnd

/-- Witness for C6: a raw input that repeats a symbol collapses to a
single position for the shared identifier (dict-overwrite semantics). -/
theorem C6_witness :
    (((Portfolio.mk [AssetPosition.mk 1 5]).to_asset_positions).map
      AssetPosition.assetId).Nodup :=
  C6_positions_keyed_by_identifier demoAssetMaster
    [("BTC", 100), ("BTC", 5)] .NATIVE
    (Portfolio.mk [AssetPosition.mk 1 5]) (by decide)

/-- Market-data override attached to a bumped option valuation. -/
structure MarketDataOverride where
  additive_bump : ℚ
deriving DecidableEq, Repr

/-- An option valuation as built in the option-pricing demo notebook.
UUIDs and datetimes are modelled as naturals, prices as rationals;
optional fields are None when the notebook leaves them unset. -/
structure OptionValuation where
  option_valuation_id : Nat
  qty : ℚ
  option_asset_id : Option Nat
  underlier_asset_id : Option Nat
  strike : Option ℚ
  expiry : Option Nat
  option_type : Option String
  option_style : Option String
  contract_size : ℚ
  spot_price_override : Option MarketDataOverride
  implied_vol_override : Option MarketDataOverride
deriving DecidableEq, Repr

/-- The request sent to the compute_option_valuations endpoint: the
list of option valuations, and an optional as-of time (absent in
real-time valuation mode). -/
structure OptionValuationRequest where
  options : List OptionValuation
  as_of_time : Option Nat
deriving DecidableEq, Repr

/-- One valuation result returned by the remote service. -/
structure OptionValuationResult where
  option_valuation_id : Nat
  pv : ℚ
deriving DecidableEq, Repr

/-- Request construction inside run_compute_option_valuations: the
options list is the values of the input dictionary, and as_of_time is
set on the request only when the argument is not None. -/
def buildOptionValuationRequest
    (the_optvals : List (String × OptionValuation))
    (as_of_time : Option Nat) : OptionValuationRequest :=
  let request : OptionValuationRequest :=
    { options := the_optvals.map Prod.snd, as_of_time := none }
  match as_of_time with
  | none => request
  | some t => { request with as_of_time := some t }

/-- Modelled from the spec: the remote pricer facade, an abstract HTTP
endpoint that either surfaces an error (HTTP status code or
deserialization failure) or returns a list of results; the SDK adds no
policy of its own around it. -/
structure PricerClient where
  compute_option_valuations :
    OptionValuationRequest → Except String (List OptionValuationResult)

/-- Modelled from the spec: OptionValuationResultTablePlot reshapes
the raw response into a table keyed by the human-readable keys of the
input dictionary, matching each result to its input valuation by
option_valuation_id; it is a pure reformatting of the response. -/
def results_table (val_results : List OptionValuationResult)
    (the_optvals : List (String × OptionValuation)) :
    List (String × Option OptionValuationResult) :=
  the_optvals.map (fun p =>
    (p.1, val_results.find? (fun r =>
      r.option_valuation_id == p.2.option_valuation_id)))

/-- Embedding of run_compute_option_valuations from the option-pricing
demo notebook.  The second component of the result records every
request the function sends to the remote endpoint, in order. -/
def run_compute_option_valuations (api : PricerClient)
    (the_optvals : List (String × OptionValuation))
    (as_of_time : Option Nat) :
    Except String (List (String × Option OptionValuationResult)) ×
      List OptionValuationRequest :=
  let request := buildOptionValuationRequest the_optvals as_of_time
  (match api.compute_option_valuations request with
   | Except.error e => Except.error e
   | Except.ok val_results =>
       Except.ok (results_table val_results the_optvals),
   [request])

/-- C3: run_compute_option_valuations is a direct call-and-convert
adapter: it builds a single OptionValuationRequest whose options list
is exactly the values of its input dictionary, sends exactly that one
request to the remote endpoint, and on success returns the pure
reformatting of the response, computing no valuation locally. -/
theorem C3_run_compute_is_call_and_convert (api : PricerClient)
    (the_optvals : List (String × OptionValuation))
    (as_of_time : Option Nat) :
    (run_compute_option_valuations api the_optvals as_of_time).2 =
      [buildOptionValuationRequest the_optvals as_of_time] ∧
    (buildOptionValuationRequest the_optvals as_of_time).options =
      the_optvals.map Prod.snd ∧
    ∀ rs, api.compute_option_valuations
        (buildOptionValuationRequest the_optvals as_of_time) =
          Except.ok rs →
      (run_compute_option_valuations api the_optvals as_of_time).1 =
        Except.ok (results_table rs the_optvals) := by
  refine ⟨rfl, ?_, ?_⟩
  · unfold buildOptionValuationRequest
    cases as_of_time <;> rfl
  · intro rs h
    simp [run_compute_option_valuations, h]

/-- Demo client: returns one result per option in the request. -/
def demoClient : PricerClient where
  compute_option_valuations := fun req =>
    Except.ok (req.options.map (fun ov =>
      OptionValuationResult.mk ov.option_valuation_id 42))

/-- Demo option valuation used by concrete instantiations. -/
def demoOptval : OptionValuation where
  option_valuation_id := 0
  qty := 10
  option_asset_id := some 7
  underlier_asset_id := none
  strike := none
  expiry := none
  option_type := none
  option_style := none
  contract_size := 1
  spot_price_override := none
  implied_vol_override := none

/-- Witness for C3: on the demo client and a one-entry dictionary, the
returned table is the reformatting of the response. -/
theorem C3_witness :
    (run_compute_option_valuations demoClient
        [("predefined", demoOptval)] none).1 =
      Except.ok (results_table [OptionValuationResult.mk 0 42]
        [("predefined", demoOptval)]) :=
  (C3_run_compute_is_call_and_convert demoClient
    [("predefined", demoOptval)] none).2.2
    [OptionValuationResult.mk 0 42] rfl

/-- C5: run_compute_option_valuations implements no retry,
backpressure or partial-failure policy: the remote call is attempted
exactly once per invocation, an error from the underlying client
propagates unchanged to the caller, and the call succeeds exactly when
the underlying call succeeds. -/
theorem C5_no_retry_errors_propagate (api : PricerClient)
    (the_optvals : List (String × OptionValuation))
    (as_of_time : Option Nat) :
    (run_compute_option_valuations api the_optvals as_of_time).2.length
      = 1 ∧
    (∀ e, api.compute_option_valuations
        (buildOptionValuationRequest the_optvals as_of_time) =
          Except.error e →
      (run_compute_option_valuations api the_optvals as_of_time).1 =
        Except.error e) ∧
    (∀ rs, api.compute_option_valuations
        (buildOptionValuationRequest the_optvals as_of_time) =
          Except.ok rs →
      ∃ t, (run_compute_option_valuations api the_optvals as_of_time).1 =
        Except.ok t) := by
  refine ⟨rfl, ?_, ?_⟩
  · intro e h
    simp [run_compute_option_valuations, h]
  · intro rs h
    exact ⟨results_table rs the_optvals,
      by simp [run_compute_option_valuations, h]⟩

/-- Demo client that always fails, like an HTTP 500. -/
def demoFailClient : PricerClient where
  compute_option_valuations := fun _ => Except.error "HTTP 500"

/-- Witness for C5: the failing client's error reaches the caller
unchanged. -/
theorem C5_witness :
    (run_compute_option_valuations demoFailClient
        [("predefined", demoOptval)] none).1 =
      Except.error "HTTP 500" :=
  (C5_no_retry_errors_propagate demoFailClient
    [("predefined", demoOptval)] none).2.1 "HTTP 500" rfl

/-- C8: when the as_of_time argument is None the request carries no
as_of_time (real-time mode); when it is given, the request records
exactly that value (historical mode); and the only other request
field, the options list, does not depend on as_of_time. -/
theorem C8_as_of_time_handling
    (the_optvals : List (String × OptionValuation)) :
    (buildOptionValuationRequest the_optvals none).as_of_time = none ∧
    (∀ t, (buildOptionValuationRequest the_optvals
      (some t)).as_of_time = some t) ∧
    (∀ t u, (buildOptionValuationRequest the_optvals t).options =
      (buildOptionValuationRequest the_optvals u).options) := by
  refine ⟨rfl, fun t => rfl, fun t u => ?_⟩
  unfold buildOptionValuationRequest
  cases t <;> cases u <;> rfl

/-- Elementwise multiplication of an array by a scalar, as numpy
broadcasting does in the demo plot cells. -/
def npScale (c : ℚ) (xs : List ℚ) : List ℚ :=
  xs.map (fun x => c * x)

/-- Elementwise addition of two arrays. -/
def npAdd (xs ys : List ℚ) : List ℚ :=
  List.zipWith (fun x y => x + y) xs ys

/-- Elementwise square of an array. -/
def npSq (xs : List ℚ) : List ℚ :=
  xs.map (fun x => x ^ 2)

/-- Bump percentages of both market-data bump cells of the
option-pricing demo. -/
def bumps_in_perc : List ℚ :=
  [-20, -10, -5, -(5/2), -1, 0, 1, 5/2, 5, 10, 20]

/-- Spot bump values: spot_base * sb / 100 for each percentage. -/
def spot_bump_vals (spot_base : ℚ) : List ℚ :=
  bumps_in_perc.map (fun sb => spot_base * sb / 100)

/-- Vol bump values: sb / 100 for each percentage. -/
def vol_bump_vals : List ℚ :=
  bumps_in_perc.map (fun sb => sb / 100)

/-- First-order spot series plotted by the demo:
qty * delta_base * sb_vals with numpy broadcasting. -/
def spot_first_order_series (qty delta_base : ℚ) (sb_vals : List ℚ) :
    List ℚ :=
  npScale (qty * delta_base) sb_vals

/-- Second-order spot series plotted by the demo:
qty * (delta_base * sb_vals + 0.5 * gamma_base * sb_vals ^ 2) with
numpy broadcasting. -/
def spot_second_order_series (qty delta_base gamma_base : ℚ)
    (sb_vals : List ℚ) : List ℚ :=
  npScale qty
    (npAdd (npScale delta_base sb_vals)
      (npScale ((1/2) * gamma_base) (npSq sb_vals)))

/-- First-order vol series plotted by the demo:
qty * vega_base * sb_vals with numpy broadcasting. -/
def vol_first_order_series (qty vega_base : ℚ) (sb_vals : List ℚ) :
    List ℚ :=
  npScale (qty * vega_base) sb_vals

theorem npAdd_map_map (f g : ℚ → ℚ) (l : List ℚ) :
    npAdd (l.map f) (l.map g) = l.map (fun x => f x + g x) := by
  induction l with
  | nil => rfl
  | cons x rest ih =>
      simp only [List.map_cons, npAdd, List.zipWith_cons_cons]
      exact congrArg _ ih

/-- C4: in the Taylor-expansion sanity checks, for every bump value b
in the bump list the first-order spot approximation is
qty * delta_base * b, the second-order one is
qty * (delta_base * b + 0.5 * gamma_base * b^2), and for every vol
bump v the first-order vol approximation is qty * vega_base * v, the
greeks being those of the unbumped base-case valuation. -/
theorem C4_taylor_sanity_checks (qty delta_base gamma_base vega_base
    spot_base : ℚ) :
    spot_first_order_series qty delta_base (spot_bump_vals spot_base) =
      (spot_bump_vals spot_base).map (fun b => qty * delta_base * b) ∧
    spot_second_order_series qty delta_base gamma_base
        (spot_bump_vals spot_base) =
      (spot_bump_vals spot_base).map (fun b =>
        qty * (delta_base * b + (1/2) * gamma_base * b ^ 2)) ∧
    vol_first_order_series qty vega_base vol_bump_vals =
      vol_bump_vals.map (fun v => qty * vega_base * v) := by
  refine ⟨?_, ?_, ?_⟩
  · simp only [spot_first_order_series, npScale]
  · simp only [spot_second_order_series, npScale, npSq, List.map_map]
    rw [npAdd_map_map]
    apply List.map_congr_left
    intro b _
    simp only [Function.comp]
  · simp only [vol_first_order_series, npScale]

/-- The spot-bump loop of the option-pricing demo: each iteration
copies the base valuation, draws a fresh UUID for
option_valuation_id (uuid4 modelled by a counter supply, so that every
draw is new) and sets spot_price_override to the additive bump. -/
def spotBumpCopies (base : OptionValuation) :
    List (String × ℚ) → Nat → List (String × OptionValuation)
  | [], _ => []
  | (k, bval) :: rest, supply =>
      ("spot_bump_" ++ k ++ "%",
        { base with option_valuation_id := supply,
                    spot_price_override :=
                      some (MarketDataOverride.mk bval) }) ::
        spotBumpCopies base rest (supply + 1)

/-- The scenario dictionary built by the spot-bump cell: the base
valuation under the key base, then one bumped copy per bump. -/
def spot_bumps_optvals (base : OptionValuation)
    (bumps : List (String × ℚ)) (supply : Nat) :
    List (String × OptionValuation) :=
  ("base", base) :: spotBumpCopies base bumps supply

/-- The vol-bump loop: same shape, overriding implied_vol_override. -/
def volBumpCopies (base : OptionValuation) :
    List (String × ℚ) → Nat → List (String × OptionValuation)
  | [], _ => []
  | (k, bval) :: rest, supply =>
      ("vol_bump_" ++ k ++ "%",
        { base with option_valuation_id := supply,
                    implied_vol_override :=
                      some (MarketDataOverride.mk bval) }) ::
        volBumpCopies base rest (supply + 1)

/-- The scenario dictionary built by the vol-bump cell. -/
def vol_bumps_optvals (base : OptionValuation)
    (bumps : List (String × ℚ)) (supply : Nat) :
    List (String × OptionValuation) :=
  ("base", base) :: volBumpCopies base bumps supply

/-- Identifiers of the entries of a scenario dictionary. -/
def scenarioIds (l : List (String × OptionValuation)) : List Nat :=
  l.map (fun e => e.2.option_valuation_id)

theorem spotBumpCopies_id_ge (base : OptionValuation)
    (bumps : List (String × ℚ)) (supply : Nat) :
    ∀ e ∈ spotBumpCopies base bumps supply,
      supply ≤ e.2.option_valuation_id := by
  induction bumps generalizing supply with
  | nil => intro e he; cases he
  | cons b rest ih =>
      intro e he
      cases b with
      | mk k bval =>
          rcases List.mem_cons.mp he with h | h
          · subst h; exact Nat.le_refl _
          · exact Nat.le_of_succ_le (ih (supply + 1) e h)

theorem volBumpCopies_id_ge (base : OptionValuation)
    (bumps : List (String × ℚ)) (supply : Nat) :
    ∀ e ∈ volBumpCopies base bumps supply,
      supply ≤ e.2.option_valuation_id := by
  induction bumps generalizing supply with
  | nil => intro e he; cases he
  | cons b rest ih =>
      intro e he
      cases b with
      | mk k bval =>
          rcases List.mem_cons.mp he with h | h
          · subst h; exact Nat.le_refl _
          · exact Nat.le_of_succ_le (ih (supply + 1) e h)

theorem nodup_scenarioIds_spotBumpCopies (base : OptionValuation)
    (bumps : List (String × ℚ)) (supply : Nat) :
    (scenarioIds (spotBumpCopies base bumps supply)).Nodup := by
  induction bumps generalizing supply with
  | nil => exact List.nodup_nil
  | cons b rest ih =>
      cases b with
      | mk k bval =>
          simp only [spotBumpCopies, scenarioIds, List.map_cons,
            List.nodup_cons]
          refine ⟨?_, ih (supply + 1)⟩
          intro hmem
          rcases List.mem_map.mp hmem with ⟨e, he, hid⟩
          have := spotBumpCopies_id_ge base rest (supply + 1) e he
          omega

theorem nodup_scenarioIds_volBumpCopies (base : OptionValuation)
    (bumps : List (String × ℚ)) (supply : Nat) :
    (scenarioIds (volBumpCopies base bumps supply)).Nodup := by
  induction bumps generalizing supply with
  | nil => exact List.nodup_nil
  | cons b rest ih =>
      cases b with
      | mk k bval =>
          simp only [volBumpCopies, scenarioIds, List.map_cons,
            List.nodup_cons]
          refine ⟨?_, ih (supply + 1)⟩
          intro hmem
          rcases List.mem_map.mp hmem with ⟨e, he, hid⟩
          have := volBumpCopies_id_ge base rest (supply + 1) e he
          omega

/-- C9: in both market-data bump loops, every generated scenario
dictionary has pairwise distinct option_valuation_id values (the base
id was drawn from the same fresh supply earlier, hence is below the
loop's supply), and each bumped copy differs from the base only in
that id and the single overridden market-data field: restoring those
two fields gives back the base valuation exactly. -/
theorem C9_bump_loops_fresh_ids (base : OptionValuation)
    (spotBumps volBumps : List (String × ℚ)) (s1 s2 : Nat)
    (h1 : base.option_valuation_id < s1)
    (h2 : base.option_valuation_id < s2) :
    (scenarioIds (spot_bumps_optvals base spotBumps s1)).Nodup ∧
    (∀ e ∈ spotBumpCopies base spotBumps s1,
      { e.2 with option_valuation_id := base.option_valuation_id,
                 spot_price_override := base.spot_price_override } =
        base) ∧
    (scenarioIds (vol_bumps_optvals base volBumps s2)).Nodup ∧
    (∀ e ∈ volBumpCopies base volBumps s2,
      { e.2 with option_valuation_id := base.option_valuation_id,
                 implied_vol_override := base.implied_vol_override } =
        base) := by
  refine ⟨?_, ?_, ?_, ?_⟩
  · simp only [spot_bumps_optvals, scenarioIds, List.map_cons,
      List.nodup_cons]
    refine ⟨?_, nodup_scenarioIds_spotBumpCopies base spotBumps s1⟩
    intro hmem
    rcases List.mem_map.mp hmem with ⟨e, he, hid⟩
    have := spotBumpCopies_id_ge base spotBumps s1 e he
    omega
  · intro e he
    induction spotBumps generalizing s1 with
    | nil => cases he
    | cons b rest ih =>
        cases b with
        | mk k bval =>
            rcases List.mem_cons.mp he with h | h
            · subst h
              cases base
              rfl
            · exact ih (s1 + 1) (by omega) h
  · simp only [vol_bumps_optvals, scenarioIds, List.map_cons,
      List.nodup_cons]
    refine ⟨?_, nodup_scenarioIds_volBumpCopies base volBumps s2⟩
    intro hmem
    rcases List.mem_map.mp hmem with ⟨e, he, hid⟩
    have := volBumpCopies_id_ge base volBumps s2 e he
    omega
  · intro e he
    induction volBumps generalizing s2 with
    | nil => cases he
    | cons b rest ih =>
        cases b with
        | mk k bval =>
            rcases List.mem_cons.mp he with h | h
            · subst h
              cases base
              rfl
            · exact ih (s2 + 1) (by omega) h

/-- Witness for C9 at a concrete base valuation and two bumps. -/
theorem C9_witness :
    (scenarioIds (spot_bumps_optvals demoOptval
      [("-1.0", -1), ("1.0", 1)] 1)).Nodup ∧
    (∀ e ∈ spotBumpCopies demoOptval [("-1.0", -1), ("1.0", 1)] 1,
      { e.2 with
          option_valuation_id := demoOptval.option_valuation_id,
          spot_price_override := demoOptval.spot_price_override } =
        demoOptval) ∧
    (scenarioIds (vol_bumps_optvals demoOptval
      [("-1.0", -1), ("1.0", 1)] 1)).Nodup ∧
    (∀ e ∈ volBumpCopies demoOptval [("-1.0", -1), ("1.0", 1)] 1,
      { e.2 with
          option_valuation_id := demoOptval.option_valuation_id,
          implied_vol_override := demoOptval.implied_vol_override } =
        demoOptval) :=
  C9_bump_loops_fresh_ids demoOptval
    [("-1.0", -1), ("1.0", 1)] [("-1.0", -1), ("1.0", 1)] 1 1
    (by decide) (by decide)

/-- Lines of the Makefile variant stored as src/unnamed/part_003,
verbatim; recipe lines keep their leading tab character. -/
def part003Lines : List String := [
  "PYTHON = python3",
  "SHELL := /bin/bash",
  "",
  ".PHONY = help setup test clean",
  ".DEFAULT_GOAL = help",
  "",
  "# basic virtual environment setup",
  "venv:",
  "\t@echo \"Setting up virtual environment...\"",
  "\trm -rf venv",
  "<<<<<<< HEAD",
  "\t${PYTHON} -m venv venv",
  "\tsource venv/bin/activate",
  "\tpip install poetry bumpversion build twine keyring keyrings.alt flake8 pytest",
  "\tpoetry install",
  "",
  "activate-venv:",
  "\tsource venv/bin/activate",
  "",
  "# static code analysis",
  "lint: activate-venv",
  "\tflake8 src tests",
  "",
  "# Run unit tests",
  "test: activate-venv",
  "\tsource venv/bin/activate",
  "=======",
  "\tpython -m venv venv",
  "\tsource venv/bin/activate",
  "\tpip install -U pip wheel build twine keyring keyrings.alt flake8 pytest",
  "\tpip install -e .",
  "",
  "# static code analysis",
  "lint:",
  "\tflake8 src tests",
  "",
  "# Run unit tests",
  "test: venv",
  ">>>>>>> master",
  "\t${PYTHON} -m pytest",
  "",
  "# publish to PyPi; requires an API token set in TWINE_PASSWORD",
  "install: venv lint test",
  "\t${PYTHON} -m build",
  "\t${PYTHON} -m twine upload -u __token__ dist/*",
  "",
  "# Clear out build cruft",
  "clean:",
  "\trm -rf build dist venv",
  "",
  "# Basic usage",
  "help:",
  "\t@echo \"---------------HELP-----------------\"",
  "\t@echo \"To setup the project type make setup\"",
  "\t@echo \"To test the project type make test\"",
  "\t@echo \"To publish the project type make install\"",
  "\t@echo \"------------------------------------\"",
  ""]

/-- Prefix test on character lists. -/
def charsStartWith : List Char → List Char → Bool
  | _, [] => true
  | [], _ :: _ => false
  | c :: cs, p :: ps => c == p && charsStartWith cs ps

/-- True when a line is Git conflict-marker text. -/
def isConflictMarker (l : List Char) : Bool :=
  charsStartWith l "<<<<<<<".data || charsStartWith l "=======".data ||
    charsStartWith l ">>>>>>>".data

/-- Classification of one Makefile line by the GNU make reader:
tab-indented lines are recipe lines; blank and comment lines are
skipped; an assignment needs a nonempty variable name before its equal
sign; a rule header needs a colon; anything else is the fatal missing
separator error. -/
inductive MakeLineKind
  | recipe
  | skipped
  | assign
  | ruleHeader
  | badLine
deriving DecidableEq, BEq, Repr

/-- Scan for the first separator of a Makefile line: a colon makes a
rule header (or, directly followed by an equal sign, an assignment),
an equal sign makes an assignment, and a line with neither is the
fatal missing separator. -/
def scanSep : List Char → MakeLineKind
  | [] => MakeLineKind.badLine
  | ':' :: '=' :: _ => MakeLineKind.assign
  | ':' :: _ => MakeLineKind.ruleHeader
  | '=' :: _ => MakeLineKind.assign
  | _ :: rest => scanSep rest

/-- Line classifier for the GNU make reader model.  A line whose first
character is an equal sign has an empty variable name, which GNU make
also rejects. -/
def classifyMakeLine : List Char → MakeLineKind
  | [] => MakeLineKind.skipped
  | c :: rest =>
      if c = '\t' then MakeLineKind.recipe
      else if c = '#' then MakeLineKind.skipped
      else if c = '=' then MakeLineKind.badLine
      else scanSep (c :: rest)

/-- Position (1-based, from i) of the first line the make reader
rejects. -/
def firstBadFrom : List String → Nat → Option Nat
  | [], _ => none
  | l :: rest, i =>
      if classifyMakeLine l.data = MakeLineKind.badLine then some i
      else firstBadFrom rest (i + 1)

/-- Position (1-based) of the first line the make reader rejects, if
any; GNU make stops there, before running any target. -/
def firstBadLine (lines : List String) : Option Nat :=
  firstBadFrom lines 1

/-- Characters of a rule header before its colon: the target name. -/
def takeUntilColon : List Char → List Char
  | [] => []
  | ':' :: _ => []
  | c :: rest => c :: takeUntilColon rest

/-- Consecutive recipe lines at the front of a line list, with the
leading tab removed. -/
def takeRecipes : List String → List (List Char)
  | [] => []
  | l :: rest =>
      if classifyMakeLine l.data = MakeLineKind.recipe then
        l.data.drop 1 :: takeRecipes rest
      else []

/-- Recipe of a target: the consecutive tab-indented lines directly
after the rule header naming it. -/
def recipeOf : List String → String → List (List Char)
  | [], _ => []
  | l :: rest, target =>
      if classifyMakeLine l.data = MakeLineKind.ruleHeader ∧
          takeUntilColon l.data = target.data then
        takeRecipes rest
      else recipeOf rest target

/-- Minimal shell model for a recipe: conflict-marker text is a shell
syntax error, every other command is assumed to succeed.  Returns
whether the recipe ran to completion and the list of commands actually
executed. -/
def runRecipe : List (List Char) → Bool × List (List Char)
  | [] => (true, [])
  | c :: rest =>
      if isConflictMarker c then (false, [c])
      else
        match runRecipe rest with
        | (r, tr) => (r, c :: tr)

/-- Invocation of one make target: GNU make reads the whole makefile
first and aborts at the first rejected line (missing separator);
only with a clean read does it execute the recipe of the target.  The
first component is true when the invocation succeeds, the second is
the list of recipe commands actually executed. -/
def runMakeTarget (lines : List String) (target : String) :
    Bool × List (List Char) :=
  match firstBadLine lines with
  | some _ => (false, [])
  | none => runRecipe (recipeOf lines target)

/-- C10 counterexample: invoking the venv target of part_003 does fail,
but it executes no recipe text at all - in particular never
conflict-marker text: GNU make stops at the missing-separator read
error with an empty executed-command trace. -/
theorem C10_counterexample :
    runMakeTarget part003Lines "venv" = (false, []) ∧
    (∀ c ∈ (runMakeTarget part003Lines "venv").2,
      isConflictMarker c = false) := by
  decide

/-- C10 (amended): the part_003 Makefile variant holds unresolved Git
conflict markers at lines 11, 27 and 39, inside the venv and test
recipe regions; GNU make rejects the file at line 11 before executing
anything, so every target invocation - the venv and other build entry
points included - fails without running any recipe line. -/
theorem C10_make_never_succeeds :
    part003Lines.get? 10 = some "<<<<<<< HEAD" ∧
    part003Lines.get? 26 = some "=======" ∧
    part003Lines.get? 38 = some ">>>>>>> master" ∧
    isConflictMarker "<<<<<<< HEAD".data = true ∧
    isConflictMarker "=======".data = true ∧
    isConflictMarker ">>>>>>> master".data = true ∧
    firstBadLine part003Lines = some 11 ∧
    ∀ target, (runMakeTarget part003Lines target).1 = false := by
  refine ⟨by decide, by decide, by decide, by decide, by decide,
    by decide, by decide, ?_⟩
  intro target
  have h : firstBadLine part003Lines = some 11 := by decide
  unfold runMakeTarget
  rw [h]

end Serenity
